import Mathlib

/-!
Verification of the cursor-based hierarchical navigation engine of the
python-nxs repository (`nxs/napi.py`).

The `NeXus` class keeps a logical path stack `_path` and an "inside a
dataset" flag `_indata`, and drives a stateful backing store (libNeXus)
through single-step primitives: `opengroup`, `opendata`, `closegroup`,
`closedata`, plus a forward-only child/attribute enumeration cursor.
This file gives a shallow embedding of that navigation code.  The
backing store itself is external to the repository; it is modelled from
the spec's Store contract as an immutable tree of groups and leaves,
with the cursor position determined by the path stack.
-/

deriving instance DecidableEq for Except

namespace Napi

/-- Error taxonomy of the navigation code.  `tooManyDotDot` is the
`ValueError("too many '..' in path")` raised during normalization (the
spec's PathUnderflow); `notFound` is the `ValueError("node %s not in %s")`
raised when a target segment is absent from the active group; `keyError`
is the `KeyError` raised by `opengroup` when class lookup fails;
`storeError` wraps any failing store primitive. -/
inductive NXError where
  | tooManyDotDot
  | notFound (seg : String)
  | keyError
  | storeError
deriving DecidableEq, Repr

/-- One close/open operation executed against the Store, as in the
spec's PathResolver contract: `OpenGroup(name,class)`, `OpenLeaf(name)`
(`opendata`), `Close` of a group (`closegroup`) and of a leaf
(`closedata`). -/
inductive Op where
  | openGroup (name nxclass : String)
  | openLeaf (name : String)
  | closeGroup
  | closeLeaf
deriving DecidableEq, Repr

/-- Navigation state of the `NeXus` object: the `_path` list and the
`_indata` flag. -/
structure NXState where
  path : List String
  indata : Bool
deriving DecidableEq, Repr

/-- Result of running a navigation method: the state after the call,
the close/open operations performed against the store (in order), and
the error raised, if any.  A raised error leaves the state and the
already-performed operations as they were at the failure point, exactly
as a Python exception does. -/
structure NXResult where
  state : NXState
  ops : List Op
  err : Option NXError
deriving DecidableEq, Repr

/-- Sequencing of navigation steps: a raised error propagates and stops
execution (Python exception propagation); otherwise the second step runs
from the first step's final state and the performed operations are
concatenated. -/
def NXResult.andThen (r : NXResult) (f : NXState → NXResult) : NXResult :=
  match r.err with
  | some _ => r
  | none => ⟨(f r.state).state, r.ops ++ (f r.state).ops, (f r.state).err⟩

/-- Modelled from the spec: the container seen through the Store is a
tree of groups (each with a class, attributes and an ordered child
list, the container's native enumeration order) and leaves (`SDS`
datasets, with attributes).  Attribute values are kept as the strings
the navigation code compares against paths. -/
inductive Node where
  | group (nxclass : String) (attrs : List (String × String)) (children : List (String × Node))
  | sds (attrs : List (String × String))

/-- The class string reported for a child by `getnextentry`: the group's
class, or the distinguished leaf sentinel `SDS` for a dataset. -/
def entryClass : Node → String
  | .group c _ _ => c
  | .sds _ => "SDS"

/-- The `(name, nxclass)` pairs returned by a full
`initgroupdir`/`getnextentry` enumeration pass of a child list. -/
def entriesOf (ch : List (String × Node)) : List (String × String) :=
  ch.map (fun e => (e.1, entryClass e.2))

/-- Attributes of a node, as enumerated by
`initattrdir`/`getnextattr`/`getattr`. -/
def nodeAttrs : Node → List (String × String)
  | .group _ a _ => a
  | .sds a => a

/-- First child with the given name (the store's lookup is the same
first-match scan the resolver performs over the enumeration order). -/
def childNamed (ch : List (String × Node)) (name : String) : Option Node :=
  match ch.find? (fun e => e.1 == name) with
  | some e => some e.2
  | none => none

/-- The node the store is positioned on for a given path stack, if the
stack denotes an existing chain (the `NeXus` object keeps `_path` in
lockstep with every successful store open/close, so the active store
node is the one reached by walking `_path` from the root). -/
def nodeAt : Node → List String → Option Node
  | n, [] => some n
  | .group _ _ ch, name :: rest =>
    match childNamed ch name with
    | some c => nodeAt c rest
    | none => none
  | .sds _, _ :: _ => none

/-- Modelled from the spec: the store's `openGroup(name, class)`
primitive succeeds iff the active node is a group with a child group of
that name and class. -/
def storeOpengroupOK (t : Node) (st : NXState) (name nxclass : String) : Bool :=
  match nodeAt t st.path with
  | some (.group _ _ ch) =>
    match childNamed ch name with
    | some (.group c2 _ _) => c2 == nxclass
    | _ => false
  | _ => false

/-- Modelled from the spec: the store's `openLeaf(name)` primitive
succeeds iff the active node is a group with a leaf child of that
name. -/
def storeOpendataOK (t : Node) (st : NXState) (name : String) : Bool :=
  match nodeAt t st.path with
  | some (.group _ _ ch) =>
    match childNamed ch name with
    | some (.sds _) => true
    | _ => false
  | _ => false

/-- Modelled from the spec: the store's `closeGroup()` primitive
succeeds iff the active node is a group other than the root. -/
def storeClosegroupOK (t : Node) (st : NXState) : Bool :=
  match nodeAt t st.path with
  | some (.group _ _ _) => !st.path.isEmpty
  | _ => false

/-- Modelled from the spec: the store's `closeLeaf()` primitive succeeds
iff the active node is a leaf. -/
def storeClosedataOK (t : Node) (st : NXState) : Bool :=
  match nodeAt t st.path with
  | some (.sds _) => true
  | _ => false

/-- Python dict insertion on an association list: overwrite in place if
the key exists, else append (insertion order is preserved, last write
wins). -/
def dictInsert (d : List (String × String)) (k v : String) : List (String × String) :=
  if d.any (fun p => p.1 == k) then d.map (fun p => if p.1 == k then (k, v) else p)
  else d ++ [(k, v)]

/-- Python dict lookup on an association list built by `dictInsert`. -/
def dictLookup (d : List (String × String)) (k : String) : Option String :=
  match d.find? (fun p => p.1 == k) with
  | some p => some p.2
  | none => none

/-- `NeXus.getentries`: reset the enumeration cursor and drain it into a
dict `result[name] = nxclass`.  The source loop inserts the first entry
once before the `while` loop and once inside it; no `H4SKIP` filtering
is performed here. -/
def getentriesLoop : List (String × String) → List (String × String) → List (String × String)
  | acc, [] => acc
  | acc, e :: rest => getentriesLoop (dictInsert acc e.1 e.2) rest

/-- `NeXus.getentries` against the modelled store: fails (raises) when
the active node is not a group, else returns the drained dict. -/
def getentries (t : Node) (st : NXState) : Except NXError (List (String × String)) :=
  match nodeAt t st.path with
  | some (.group _ _ ch) =>
    match entriesOf ch with
    | [] => .ok []
    | e :: _ => .ok (getentriesLoop (dictInsert [] e.1 e.2) (entriesOf ch))
  | _ => .error .storeError

/-- The class-resolution prologue of `NeXus.opengroup(name, nxclass)`:
when `nxclass` is `None` the class is looked up via `getentries`,
raising `KeyError` if the name is absent. -/
def opengroupClass (t : Node) (st : NXState) (name : String) :
    Option String → Except NXError String
  | some c => .ok c
  | none =>
    match getentries t st with
    | .error e => .error e
    | .ok listing =>
      match dictLookup listing name with
      | some c => .ok c
      | none => .error .keyError

/-- `NeXus.opengroup(name, nxclass)`: resolve the class (possibly
raising), then run the store `openGroup` and, only on success, append
`name` to `_path`. -/
def opengroup (t : Node) (st : NXState) (name : String) (nxclass : Option String) : NXResult :=
  match opengroupClass t st name nxclass with
  | .error e => ⟨st, [], some e⟩
  | .ok c =>
    if storeOpengroupOK t st name c then
      ⟨⟨st.path ++ [name], st.indata⟩, [.openGroup name c], none⟩
    else ⟨st, [], some .storeError⟩

/-- `NeXus.opendata(name)`: store `openLeaf`, then on success append
`name` to `_path` and set `_indata`. -/
def opendata (t : Node) (st : NXState) (name : String) : NXResult :=
  if storeOpendataOK t st name then
    ⟨⟨st.path ++ [name], true⟩, [.openLeaf name], none⟩
  else ⟨st, [], some .storeError⟩

/-- `NeXus.closegroup()`: store `closeGroup`, then on success pop
`_path`. -/
def closegroup (t : Node) (st : NXState) : NXResult :=
  if storeClosegroupOK t st then
    ⟨⟨st.path.dropLast, st.indata⟩, [.closeGroup], none⟩
  else ⟨st, [], some .storeError⟩

/-- `NeXus.closedata()`: store `closeLeaf`, then on success pop `_path`
and clear `_indata`. -/
def closedata (t : Node) (st : NXState) : NXResult :=
  if storeClosedataOK t st then
    ⟨⟨st.path.dropLast, false⟩, [.closeLeaf], none⟩
  else ⟨st, [], some .storeError⟩

/-- Model of Python `str.split('/')` on the character list: splitting
never drops empty pieces (`"a//b"` gives `["a", "", "b"]`, `""` gives
`[""]`). -/
def splitSlashChars : List Char → List (List Char)
  | [] => [[]]
  | c :: rest =>
    if c = '/' then [] :: splitSlashChars rest
    else
      match splitSlashChars rest with
      | [] => [[c]]
      | g :: gs => (c :: g) :: gs

/-- Model of Python `path.split('/')`. -/
def splitSlash (s : String) : List String :=
  (splitSlashChars s.toList).map (fun l => String.mk l)

/-- Model of Python `path.startswith('/')`. -/
def startsWithSlash (s : String) : Bool :=
  match s.toList with
  | c :: _ => c = '/'
  | [] => false

/-- Model of Python `path[1:]`. -/
def dropFirstChar (s : String) : String :=
  String.mk (s.toList.drop 1)

/-- Model of Python `'/'.join(l)`. -/
def joinSlash : List String → String
  | [] => ""
  | [x] => x
  | x :: rest => x ++ "/" ++ joinSlash rest

/-- `NeXus.path` / `_getpath`: `'/' + '/'.join(self._path)`. -/
def getpath (st : NXState) : String :=
  "/" ++ joinSlash st.path

/-- `_openpath` step 1: turn the path expression into the raw target
segment list.  `'/'` is the empty target; an absolute path is split
after dropping the root marker; a relative path's segments are appended
to the current `_path`. -/
def parseTarget (st : NXState) (path : String) : List String :=
  if path = "/" then []
  else if startsWithSlash path then splitSlash (dropFirstChar path)
  else st.path ++ splitSlash path

/-- `_openpath` step 2: normalization loop over the raw segments.
`'.'` is skipped, `'..'` pops the last normalized segment (raising,
modelled as `none`, when none remain), anything else — including an
empty segment — is appended. -/
def normalizeLoop : List String → List String → Option (List String)
  | L, [] => some L
  | L, t :: rest =>
    if t = "." then normalizeLoop L rest
    else if t = ".." then
      (if L = [] then none else normalizeLoop L.dropLast rest)
    else normalizeLoop (L ++ [t]) rest

/-- `_openpath` step 3, the prefix-diff loop: peel the common prefix of
the current `_path` and the normalized target; return the remaining
current suffix (the groups to close, before the `reverse`) and the
remaining target suffix (the groups to open). -/
def splitDiff : List String → List String → List String × List String
  | cur, [] => (cur, [])
  | [], t :: tgt => ([], t :: tgt)
  | c :: cur, t :: tgt =>
    if c = t then splitDiff cur tgt
    else (c :: cur, t :: tgt)

/-- `_openpath` close loop: one `closegroup` per element of the reversed
(and possibly popped) `up` list. -/
def closeLoop (t : Node) : List String → NXState → NXResult
  | [], st => ⟨st, [], none⟩
  | _ :: rest, st => (closegroup t st).andThen (fun s => closeLoop t rest s)

/-- `_openpath` close phase: `up` is the reversed current-suffix; when
`_indata` and something must be closed, a `closedata` replaces one of
the `closegroup`s (the source pops one element off `up` after the
`closedata`). -/
def closePart (t : Node) (st : NXState) (u : List String) : NXResult :=
  if st.indata && !(u.reverse).isEmpty then
    (closedata t st).andThen (fun s => closeLoop t (u.reverse).dropLast s)
  else closeLoop t (u.reverse) st

/-- One iteration of the `_openpath` down loop: enumerate the active
group's children (`getgroupinfo`/`initgroupdir`/`getnextentry`), find
the first entry named like the segment, and open it — as a group if its
class is not `SDS`, as a dataset if `opendata` was requested, and not at
all otherwise (the source just `break`s and goes on to the next
segment).  An absent name raises `ValueError`; enumerating a non-group
is a store failure. -/
def downStep (t : Node) (od : Bool) (seg : String) (st : NXState) : NXResult :=
  match nodeAt t st.path with
  | some (.group _ _ ch) =>
    match (entriesOf ch).find? (fun e => e.1 == seg) with
    | some e =>
      if e.2 ≠ "SDS" then opengroup t st e.1 (some e.2)
      else if od then opendata t st e.1
      else ⟨st, [], none⟩
    | none => ⟨st, [], some (.notFound seg)⟩
  | some (.sds _) => ⟨st, [], some .storeError⟩
  | none => ⟨st, [], some .storeError⟩

/-- The `_openpath` down loop over the remaining target segments. -/
def downLoop (t : Node) (od : Bool) : List String → NXState → NXResult
  | [], st => ⟨st, [], none⟩
  | seg :: rest, st => (downStep t od seg st).andThen (fun s => downLoop t od rest s)

/-- `_openpath` steps 3-5 on an already-normalized target: diff, close
phase, down loop. -/
def resolveCore (t : Node) (st : NXState) (tgt : List String) (od : Bool) : NXResult :=
  (closePart t st (splitDiff st.path tgt).1).andThen
    (fun s => downLoop t od (splitDiff st.path tgt).2 s)

/-- `NeXus._openpath(path, opendata)`: parse, normalize (raising the
too-many-`'..'` `ValueError` before any store operation), then resolve. -/
def _openpath (t : Node) (st : NXState) (path : String) (od : Bool) : NXResult :=
  match normalizeLoop [] (parseTarget st path) with
  | none => ⟨st, [], some .tooManyDotDot⟩
  | some tgt => resolveCore t st tgt od

/-- `NeXus.openpath(path)`: `_openpath(path, opendata=True)`. -/
def openpath (t : Node) (st : NXState) (path : String) : NXResult :=
  _openpath t st path true

/-- `NeXus.opengrouppath(path)`: `_openpath(path, opendata=False)`. -/
def opengrouppath (t : Node) (st : NXState) (path : String) : NXResult :=
  _openpath t st path false

/-- `nxs.H4SKIP`: class names that may appear in HDF4 files but can be
ignored. -/
def H4SKIP : List String :=
  ["CDF0.0", "_HDF_CHK_TBL_", "Attr0.0", "RIG0.0", "RI0.0", "RIATTR0.0N", "RIATTR0.0C"]

/-- The snapshot list `L` built at the start of `NeXus.entries()`: a
full enumeration pass over the active group, keeping the `(name,
nxclass)` pairs whose class is not in `H4SKIP`.  The generator then
yields exactly these pairs, re-resolving the captured path before each
one.  Fails (raises) when the active node is not a group. -/
def entriesSnapshot (t : Node) (st : NXState) : Except NXError (List (String × String)) :=
  match nodeAt t st.path with
  | some (.group _ _ ch) => .ok ((entriesOf ch).filter (fun e => !(H4SKIP.contains e.2)))
  | _ => .error .storeError

/-- The early-return scan of `NeXus.link()` over the attribute list:
at the first attribute named `target`, return its value when it differs
from the node's own path and `None` when equal; return `None` when the
list is exhausted. -/
def linkLoop : List (String × String) → String → Option String
  | [], _ => none
  | a :: rest, p =>
    if a.1 = "target" then (if a.2 ≠ p then some a.2 else none)
    else linkLoop rest p

/-- `NeXus.link()`: scan the active node's attributes (via
`getattrinfo`/`initattrdir`/`getnextattr`/`getattr`, none of which
touches `_path` or `_indata`) with `linkLoop` against `self.path`. -/
def link (t : Node) (st : NXState) : Except NXError (Option String) :=
  match nodeAt t st.path with
  | some n => .ok (linkLoop (nodeAttrs n) (getpath st))
  | none => .error .storeError

/-- Spec-side definition of `aliasTarget` (§4.4 of the spec, stated in
its words for comparison with `link`): look the attribute named
`target` up; return its value only if it differs from the node's own
resolved absolute path, else `None`. -/
def aliasTargetSpec (attrs : List (String × String)) (selfPath : String) : Option String :=
  match attrs.find? (fun a => a.1 == "target") with
  | some a => if a.2 ≠ selfPath then some a.2 else none
  | none => none

/-- Element count of the buffer built by `NeXus._poutput(dtype, shape)`:
a rank-1 `char` request allocates a string buffer of `shape[0]`
elements; anything else allocates a numpy array with one element per
point of `shape`. -/
def poutputElems (dtype : String) (shape : List Nat) : Nat :=
  if shape.length = 1 ∧ dtype = "char" then shape.headD 0
  else shape.foldl (fun a b => a * b) 1

/-- Element count of the buffer `NeXus.getattr(name, length, dtype)`
allocates before the store read: the declared `length`, bumped by one
for `char` (the HDF4 zero-terminator accommodation), passed to
`_poutput` as a rank-1 shape. -/
def getattrAllocElems (length : Nat) (dtype : String) : Nat :=
  poutputElems dtype [if dtype = "char" then length + 1 else length]

/-- Handle-lifecycle state of the `NeXus` object: `isopen`, `_path` and
`_indata`. -/
structure FileState where
  isopen : Bool
  path : List String
  indata : Bool
deriving DecidableEq, Repr

/-- `NeXus.close()`: when open, clear `isopen`, call the store close
and raise on failure — the raise happens before the `_path`/`_indata`
reset lines, which therefore only run when the store close succeeded or
the handle was not open.  `storeOk` is the external store's verdict. -/
def closeFile (st : FileState) (storeOk : Bool) : FileState × Option NXError :=
  if st.isopen then
    if storeOk then ({ isopen := false, path := [], indata := false }, none)
    else ({ st with isopen := false }, some .storeError)
  else ({ st with path := [], indata := false }, none)

/-- `NeXus.open()` (re-open of the same handle): no-op when already
open; otherwise call the store open, raising on failure before any
reset, and on success reset `_path`/`_indata` (the source never sets
`isopen` back to `True` here). -/
def openFile (st : FileState) (storeOk : Bool) : FileState × Option NXError :=
  if st.isopen then (st, none)
  else if storeOk then ({ st with path := [], indata := false }, none)
  else (st, some .storeError)

/-- A segment that the normalization loop passes through unchanged:
neither the current-node marker nor the parent marker. -/
def cleanSeg (s : String) : Prop := s ≠ "." ∧ s ≠ ".."

/-- Example container for the path-resolution claims: the root holds
group `a`, which holds child groups `b` and `c`. -/
def treeABC : Node :=
  .group "root" [] [("a", .group "NXa" []
    [("b", .group "NXb" [] []), ("c", .group "NXc" [] [])])]

/-- Example container with a leaf in the middle of a path: the root
holds group `a`, which holds leaf `leaf` and group `x`. -/
def treeLeafMid : Node :=
  .group "root" [] [("a", .group "NXa" []
    [("leaf", .sds []), ("x", .group "NXx" [] [])])]

/-- Example container with an ignorable-class child and a leaf. -/
def treeSkip : Node :=
  .group "root" [] [("x", .group "CDF0.0" [] []), ("d", .sds [])]

/-- The spec §8 example container: root has group `entry1` (class
`NXentry`) holding leaf `data` (attribute `signal = "1"`) and leaf
`alias_to_data` carrying attribute `target = "/entry1/data"`. -/
def treeEntry : Node :=
  .group "root" [] [("entry1", .group "NXentry" []
    [("data", .sds [("signal", "1")]),
     ("alias_to_data", .sds [("target", "/entry1/data")])])]

theorem andThen_err (r : NXResult) (f : NXState → NXResult) :
    (r.andThen f).err = none ↔ r.err = none ∧ (f r.state).err = none := by
  cases h : r.err <;> simp [NXResult.andThen, h]

theorem andThen_ok (r : NXResult) (f : NXState → NXResult) (h : r.err = none) :
    r.andThen f = ⟨(f r.state).state, r.ops ++ (f r.state).ops, (f r.state).err⟩ := by
  simp [NXResult.andThen, h]

theorem closegroup_ok_state {t : Node} {st : NXState}
    (h : (closegroup t st).err = none) :
    (closegroup t st).state = ⟨st.path.dropLast, st.indata⟩ := by
  by_cases hc : storeClosegroupOK t st = true <;> simp [closegroup, hc] at h ⊢

theorem closedata_ok_state {t : Node} {st : NXState}
    (h : (closedata t st).err = none) :
    (closedata t st).state = ⟨st.path.dropLast, false⟩ := by
  by_cases hc : storeClosedataOK t st = true <;> simp [closedata, hc] at h ⊢

theorem opengroup_some_ok_state {t : Node} {st : NXState} {name c : String}
    (h : (opengroup t st name (some c)).err = none) :
    (opengroup t st name (some c)).state = ⟨st.path ++ [name], st.indata⟩ := by
  by_cases hc : storeOpengroupOK t st name c = true <;>
    simp [opengroup, opengroupClass, hc] at h ⊢

theorem opendata_ok_state {t : Node} {st : NXState} {name : String}
    (h : (opendata t st name).err = none) :
    (opendata t st name).state = ⟨st.path ++ [name], true⟩ := by
  by_cases hc : storeOpendataOK t st name = true <;> simp [opendata, hc] at h ⊢

theorem closeLoop_ok_state (t : Node) :
    ∀ (names : List String) (st : NXState) (p s : List String),
      st.path = p ++ s → s.length = names.length →
      (closeLoop t names st).err = none →
      (closeLoop t names st).state = ⟨p, st.indata⟩ := by
  intro names
  induction names with
  | nil =>
    intro st p s hp hl h
    have hs : s = [] := List.length_eq_zero.mp (by simpa using hl)
    subst hs
    obtain ⟨stp, sti⟩ := st
    simp at hp
    simp [closeLoop, hp]
  | cons n ns ih =>
    intro st p s hp hl h
    rw [closeLoop] at h ⊢
    have h1 := (andThen_err _ _).mp h
    have hsne : s ≠ [] := by
      intro hs; subst hs; simp at hl
    have hst := closegroup_ok_state h1.1
    have hp2 : ((closegroup t st).state).path = p ++ s.dropLast := by
      rw [hst]; simp [hp, List.dropLast_append_of_ne_nil _ hsne]
    have hl2 : (s.dropLast).length = ns.length := by
      have hl' : s.length = ns.length + 1 := by simpa using hl
      simp [hl']
    have hrec := ih ((closegroup t st).state) p s.dropLast hp2 hl2 h1.2
    rw [andThen_ok _ _ h1.1]
    show (closeLoop t ns (closegroup t st).state).state = ⟨p, st.indata⟩
    rw [hrec, hst]

theorem closePart_ok_path (t : Node) (st : NXState) (p u : List String)
    (hp : st.path = p ++ u) (h : (closePart t st u).err = none) :
    (closePart t st u).state.path = p := by
  by_cases hc : (st.indata && !(u.reverse).isEmpty) = true
  · rw [closePart, if_pos hc] at h ⊢
    have h1 := (andThen_err _ _).mp h
    have hun : u ≠ [] := by
      intro he
      subst he
      simp at hc
    have hst := closedata_ok_state h1.1
    rw [andThen_ok _ _ h1.1]
    have hp2 : ((closedata t st).state).path = p ++ u.dropLast := by
      rw [hst]; simp [hp, List.dropLast_append_of_ne_nil _ hun]
    have hl2 : (u.dropLast).length = ((u.reverse).dropLast).length := by
      simp [List.length_dropLast, List.length_reverse]
    have hrec := closeLoop_ok_state t ((u.reverse).dropLast) _ p u.dropLast hp2 hl2 h1.2
    show ((closeLoop t ((u.reverse).dropLast) (closedata t st).state).state).path = p
    rw [hrec]
  · rw [closePart, if_neg hc] at h ⊢
    have hl : u.length = (u.reverse).length := (List.length_reverse u).symm
    have hrec := closeLoop_ok_state t u.reverse st p u hp hl h
    rw [hrec]

theorem downStep_ok_path {t : Node} {od : Bool} {seg : String} {st : NXState}
    (h : (downStep t od seg st).err = none) :
    (downStep t od seg st).state.path = st.path ∨
      (downStep t od seg st).state.path = st.path ++ [seg] := by
  cases hn : nodeAt t st.path with
  | none => simp [downStep, hn] at h
  | some node =>
    cases node with
    | sds a => simp [downStep, hn] at h
    | group c a ch =>
      simp only [downStep, hn] at h ⊢
      cases hf : (entriesOf ch).find? (fun e => e.1 == seg) with
      | none => simp [hf] at h
      | some e =>
        simp only [hf] at h ⊢
        have hseg : e.1 = seg := by
          have := List.find?_some hf
          simpa [beq_iff_eq] using this
        by_cases h2 : e.2 ≠ "SDS"
        · rw [if_pos h2] at h ⊢
          right
          rw [opengroup_some_ok_state h, hseg]
        · rw [if_neg h2] at h ⊢
          by_cases h3 : od = true
          · rw [if_pos h3] at h ⊢
            right
            rw [opendata_ok_state h, hseg]
          · rw [if_neg h3] at h ⊢
            left
            rfl

theorem downLoop_ok_path (t : Node) (od : Bool) :
    ∀ (segs : List String) (st : NXState),
      (downLoop t od segs st).err = none →
      ∃ l, (downLoop t od segs st).state.path = st.path ++ l ∧
        ∀ x ∈ l, x ∈ segs := by
  intro segs
  induction segs with
  | nil =>
    intro st h
    exact ⟨[], by simp [downLoop], by simp⟩
  | cons seg rest ih =>
    intro st h
    rw [downLoop] at h ⊢
    have h1 := (andThen_err _ _).mp h
    rw [andThen_ok _ _ h1.1]
    obtain ⟨l, hl, hmem⟩ := ih _ h1.2
    rcases downStep_ok_path h1.1 with hd | hd
    · refine ⟨l, ?_, fun x hx => List.mem_cons_of_mem _ (hmem x hx)⟩
      simpa [hd] using hl
    · refine ⟨seg :: l, ?_, fun x hx => ?_⟩
      · simpa [hd] using hl
      · rcases List.mem_cons.mp hx with h | h
        · simp [h]
        · exact List.mem_cons_of_mem _ (hmem x h)

theorem splitDiff_decomp : ∀ (cur tgt : List String),
    ∃ p, cur = p ++ (splitDiff cur tgt).1 ∧ tgt = p ++ (splitDiff cur tgt).2 := by
  intro cur
  induction cur with
  | nil =>
    intro tgt
    cases tgt <;> exact ⟨[], by simp [splitDiff], by simp [splitDiff]⟩
  | cons c cur ih =>
    intro tgt
    cases tgt with
    | nil => exact ⟨[], by simp [splitDiff], by simp [splitDiff]⟩
    | cons s tgt =>
      by_cases hct : c = s
      · subst hct
        obtain ⟨p, h1, h2⟩ := ih tgt
        refine ⟨c :: p, ?_, ?_⟩ <;> simp [splitDiff, ← h1, ← h2]
      · exact ⟨[], by simp [splitDiff, hct], by simp [splitDiff, hct]⟩

theorem splitDiff_self : ∀ l : List String, splitDiff l l = ([], []) := by
  intro l
  induction l with
  | nil => rfl
  | cons c l ih => simp [splitDiff, ih]

theorem normalizeLoop_clean :
    ∀ (rest acc out : List String), (∀ x ∈ acc, cleanSeg x) →
      normalizeLoop acc rest = some out → ∀ x ∈ out, cleanSeg x := by
  intro rest
  induction rest with
  | nil =>
    intro acc out ha h
    rw [normalizeLoop] at h
    cases h
    exact ha
  | cons x rest ih =>
    intro acc out ha h
    rw [normalizeLoop] at h
    by_cases h1 : x = "."
    · rw [if_pos h1] at h
      exact ih acc out ha h
    · rw [if_neg h1] at h
      by_cases h2 : x = ".."
      · rw [if_pos h2] at h
        by_cases h3 : acc = []
        · rw [if_pos h3] at h
          cases h
        · rw [if_neg h3] at h
          exact ih _ out (fun y hy => ha y (List.dropLast_subset _ hy)) h
      · rw [if_neg h2] at h
        refine ih _ out ?_ h
        intro y hy
        rcases List.mem_append.mp hy with hy | hy
        · exact ha y hy
        · simp at hy
          subst hy
          exact ⟨h1, h2⟩

theorem normalizeLoop_clean_eval :
    ∀ (l acc : List String), (∀ x ∈ l, cleanSeg x) →
      normalizeLoop acc (l ++ ["."]) = some (acc ++ l) := by
  intro l
  induction l with
  | nil =>
    intro acc h
    simp [normalizeLoop]
  | cons x l ih =>
    intro acc h
    have hx := h x (by simp)
    rw [List.cons_append, normalizeLoop, if_neg hx.1, if_neg hx.2]
    rw [ih (acc ++ [x]) (fun y hy => h y (by simp [hy]))]
    simp

theorem dot_noop (t : Node) (st : NXState) (od : Bool)
    (h : ∀ x ∈ st.path, cleanSeg x) :
    _openpath t st "." od = ⟨st, [], none⟩ := by
  have h1 : parseTarget st "." = st.path ++ ["."] := by
    rw [parseTarget, if_neg (show ¬("." : String) = "/" by decide),
      if_neg (show ¬(startsWithSlash "." = true) by decide),
      show splitSlash "." = ["."] from by decide]
  have h2 : normalizeLoop [] (st.path ++ ["."]) = some ([] ++ st.path) :=
    normalizeLoop_clean_eval st.path [] h
  simp only [List.nil_append] at h2
  rw [_openpath, h1, h2]
  simp [resolveCore, splitDiff_self, closePart, closeLoop, downLoop, NXResult.andThen]

theorem resolveCore_clean {t : Node} {st : NXState} {tgt : List String} {od : Bool}
    (hclean : ∀ x ∈ tgt, cleanSeg x)
    (h : (resolveCore t st tgt od).err = none) :
    ∀ x ∈ (resolveCore t st tgt od).state.path, cleanSeg x := by
  obtain ⟨p, hc, ht⟩ := splitDiff_decomp st.path tgt
  rw [resolveCore] at h ⊢
  have h1 := (andThen_err _ _).mp h
  rw [andThen_ok _ _ h1.1]
  have hcp := closePart_ok_path t st p (splitDiff st.path tgt).1 hc h1.1
  obtain ⟨l, hl, hmem⟩ := downLoop_ok_path t od (splitDiff st.path tgt).2 _ h1.2
  intro x hx
  simp only at hx
  rw [hl, hcp] at hx
  rcases List.mem_append.mp hx with hx | hx
  · exact hclean x (by rw [ht]; exact List.mem_append_left _ hx)
  · exact hclean x (by rw [ht]; exact List.mem_append_right _ (hmem x hx))

theorem openpath_state_clean {t : Node} {st : NXState} {P : String} {od : Bool}
    (h : (_openpath t st P od).err = none) :
    ∀ x ∈ (_openpath t st P od).state.path, cleanSeg x := by
  rw [_openpath] at h ⊢
  cases hn : normalizeLoop [] (parseTarget st P) with
  | none => rw [hn] at h; simp at h
  | some tgt =>
    rw [hn] at h
    exact resolveCore_clean (normalizeLoop_clean _ _ _ (by simp) hn) h

theorem linkLoop_eq_spec :
    ∀ (attrs : List (String × String)) (p : String),
      linkLoop attrs p = aliasTargetSpec attrs p := by
  intro attrs
  induction attrs with
  | nil => intro p; rfl
  | cons a rest ih =>
    intro p
    by_cases h : a.1 = "target"
    · rw [aliasTargetSpec, List.find?_cons_of_pos _ (by simp [h])]
      rw [linkLoop, if_pos h]
    · rw [aliasTargetSpec, List.find?_cons_of_neg _ (by simp [h])]
      rw [linkLoop, if_neg h, ih, aliasTargetSpec]

/-- Claim C1 (counterexample): starting from the root of a container
whose root holds group `a` with child groups `b` and `c`, resolving
`/a/b/../c` does not perform the claimed operation sequence
`[OpenGroup(a), OpenGroup(b), Close, OpenGroup(c)]`. -/
theorem c1_counterexample :
    (openpath treeABC ⟨[], false⟩ "/a/b/../c").ops ≠
      [Op.openGroup "a" "NXa", Op.openGroup "b" "NXb", Op.closeGroup,
        Op.openGroup "c" "NXc"] := by
  decide

/-- Claim C1 (amended): normalization removes the `b/..` pair before
any operation is performed, so resolving `/a/b/../c` from the root
performs exactly `[OpenGroup(a), OpenGroup(c)]` and ends at `/a/c`. -/
theorem c1_amended :
    openpath treeABC ⟨[], false⟩ "/a/b/../c" =
      ⟨⟨["a", "c"], false⟩, [.openGroup "a" "NXa", .openGroup "c" "NXc"], none⟩ := by
  decide

/-- Claim C2 (counterexample): in AllowLeafTarget mode (`openpath`),
when the non-final segment `leaf` of `/a/leaf/x` names an `SDS` child,
the resolver does open the leaf (an `OpenLeaf` operation is performed),
rather than failing with a structural error before opening it. -/
theorem c2_counterexample :
    Op.openLeaf "leaf" ∈ (openpath treeLeafMid ⟨[], false⟩ "/a/leaf/x").ops := by
  decide

/-- Claim C2 (amended): in AllowLeafTarget mode a non-final `SDS`
segment is opened with `OpenLeaf` and resolution then continues with
the next segment while positioned on the leaf; there is no
NotATraversableNode check, and the run fails only when the next
segment's child enumeration hits the store (a store error), leaving the
cursor on the leaf. -/
theorem c2_amended :
    openpath treeLeafMid ⟨[], false⟩ "/a/leaf/x" =
      ⟨⟨["a", "leaf"], true⟩, [.openGroup "a" "NXa", .openLeaf "leaf"],
        some .storeError⟩ := by
  decide

/-- Claim C3 (counterexample): in GroupOnly mode (`opengrouppath`),
resolution of `/a/leaf/x` does not stop at the `SDS` segment `leaf`:
operations beyond `OpenGroup(a)` are performed for the remaining
segment. -/
theorem c3_counterexample :
    (opengrouppath treeLeafMid ⟨[], false⟩ "/a/leaf/x").ops ≠
      [Op.openGroup "a" "NXa"] := by
  decide

/-- Claim C3 (amended): in GroupOnly mode an `SDS` segment is skipped
without being opened, and resolution continues with the remaining
segments resolved against the group that contained the leaf (here `x`
is found in `a` and opened); only when the leaf segment is the last one
does resolution end with the containing group as the final position. -/
theorem c3_amended :
    opengrouppath treeLeafMid ⟨[], false⟩ "/a/leaf/x" =
      ⟨⟨["a", "x"], false⟩, [.openGroup "a" "NXa", .openGroup "x" "NXx"], none⟩ ∧
    opengrouppath treeLeafMid ⟨[], false⟩ "/a/leaf" =
      ⟨⟨["a"], false⟩, [.openGroup "a" "NXa"], none⟩ := by
  decide

/-- Claim C4: whenever normalization of the path expression underflows
(more `..` segments than can be popped), `_openpath` raises the
PathUnderflow error (`too many '..' in path`) with no store operation
performed and the path stack and in-data flag exactly as before the
call. -/
theorem c4_underflow_atomic (t : Node) (st : NXState) (path : String) (od : Bool)
    (h : normalizeLoop [] (parseTarget st path) = none) :
    _openpath t st path od = ⟨st, [], some .tooManyDotDot⟩ := by
  rw [_openpath, h]

/-- Witness for C4: from current stack `["a"]`, the expression
`"../.."` underflows and resolution fails atomically. -/
theorem c4_underflow_atomic_witness :
    normalizeLoop [] (parseTarget ⟨["a"], false⟩ "../..") = none ∧
      _openpath treeABC ⟨["a"], false⟩ "../.." true =
        ⟨⟨["a"], false⟩, [], some .tooManyDotDot⟩ :=
  ⟨by decide, c4_underflow_atomic treeABC ⟨["a"], false⟩ "../.." true (by decide)⟩

/-- Claim C5: after a successful resolution of any path expression `P`
(in either mode), immediately resolving `"."` is a no-op: it emits zero
operations, raises no error, and leaves the state — path stack and
in-data flag — unchanged, whether the position is a group or a leaf. -/
theorem c5_dot_noop (t : Node) (st : NXState) (P : String) (od od' : Bool)
    (h : (_openpath t st P od).err = none) :
    _openpath t (_openpath t st P od).state "." od' =
      ⟨(_openpath t st P od).state, [], none⟩ :=
  dot_noop t _ od' (openpath_state_clean h)

/-- Witness for C5: resolve `/a/leaf` in GroupOnly mode (ending on a
group) and then `"."`; the claim theorem applies with the hypothesis
discharged by evaluation. -/
theorem c5_dot_noop_witness :
    (_openpath treeLeafMid ⟨[], false⟩ "/a/leaf" false).err = none ∧
      _openpath treeLeafMid (_openpath treeLeafMid ⟨[], false⟩ "/a/leaf" false).state
          "." true =
        ⟨(_openpath treeLeafMid ⟨[], false⟩ "/a/leaf" false).state, [], none⟩ :=
  ⟨by decide, c5_dot_noop treeLeafMid ⟨[], false⟩ "/a/leaf" false true (by decide)⟩

/-- Claim C6 (counterexample): `getentries()` performs no filtering at
all: a child whose class `CDF0.0` is in `H4SKIP` appears in its
result. -/
theorem c6_counterexample :
    getentries treeSkip ⟨[], false⟩ = .ok [("x", "CDF0.0"), ("d", "SDS")] ∧
      "CDF0.0" ∈ H4SKIP := by
  decide

/-- Claim C6 (amended): only the lazy `entries()` sequence excludes the
ignorable classes — every `(name, class)` pair of its snapshot has a
class outside `H4SKIP` — while `getentries()` returns the enumeration
unfiltered. -/
theorem c6_amended (t : Node) (st : NXState) (l : List (String × String))
    (h : entriesSnapshot t st = .ok l) :
    ∀ e ∈ l, e.2 ∉ H4SKIP := by
  intro e he
  cases hn : nodeAt t st.path with
  | none => rw [entriesSnapshot, hn] at h; cases h
  | some node =>
    cases node with
    | sds a => rw [entriesSnapshot, hn] at h; cases h
    | group c a ch =>
      rw [entriesSnapshot, hn] at h
      cases h
      have := (List.mem_filter.mp he).2
      simpa using this

/-- Witness for C6 (amended): on the example container the snapshot
keeps only the `SDS` child, whose class is not ignorable. -/
theorem c6_amended_witness :
    entriesSnapshot treeSkip ⟨[], false⟩ = .ok [("d", "SDS")] ∧
      ("d", "SDS").2 ∉ H4SKIP :=
  ⟨by decide, c6_amended treeSkip ⟨[], false⟩ [("d", "SDS")] (by decide)
    ("d", "SDS") (by decide)⟩

/-- Claim C7 (counterexample): when the underlying store close reports
an error, `close()` raises before the reset lines run, so the path
stack is not empty afterwards. -/
theorem c7_counterexample :
    (closeFile ⟨true, ["a"], false⟩ false).2 ≠ none ∧
      (closeFile ⟨true, ["a"], false⟩ false).1.path ≠ [] := by
  decide

/-- Claim C7 (amended): the path stack and in-data flag are reset to
empty on every `close()` that does not raise and on every successful
re-`open()` of a closed handle; when the store close fails, `close()`
raises with the path stack and in-data flag untouched (though `isopen`
has already been cleared). -/
theorem c7_amended (st : FileState) (ok : Bool) :
    ((closeFile st ok).2 = none →
      (closeFile st ok).1.path = [] ∧ (closeFile st ok).1.indata = false) ∧
    ((closeFile st ok).2 ≠ none →
      (closeFile st ok).1.path = st.path ∧ (closeFile st ok).1.indata = st.indata ∧
        (closeFile st ok).1.isopen = false) ∧
    (st.isopen = false → ok = true →
      (openFile st ok).1.path = [] ∧ (openFile st ok).1.indata = false) := by
  refine ⟨?_, ?_, ?_⟩
  · intro h
    by_cases ho : st.isopen = true
    · by_cases hk : ok = true
      · simp [closeFile, ho, hk]
      · simp [closeFile, ho, hk] at h
    · simp [closeFile, ho]
  · intro h
    by_cases ho : st.isopen = true
    · by_cases hk : ok = true
      · simp [closeFile, ho, hk] at h
      · simp [closeFile, ho, hk]
    · simp [closeFile, ho] at h
  · intro ho hk
    simp [openFile, ho, hk]

/-- Witness for C7 (amended): a successful close resets the stack, a
failed close preserves it, and a successful re-open resets it. -/
theorem c7_amended_witness :
    ((closeFile ⟨true, ["a"], true⟩ true).1.path = [] ∧
      (closeFile ⟨true, ["a"], true⟩ true).1.indata = false) ∧
    ((closeFile ⟨true, ["a"], true⟩ false).1.path = ["a"] ∧
      (closeFile ⟨true, ["a"], true⟩ false).1.indata = true ∧
      (closeFile ⟨true, ["a"], true⟩ false).1.isopen = false) ∧
    ((openFile ⟨false, ["a"], true⟩ true).1.path = [] ∧
      (openFile ⟨false, ["a"], true⟩ true).1.indata = false) :=
  ⟨(c7_amended ⟨true, ["a"], true⟩ true).1 (by decide),
    (c7_amended ⟨true, ["a"], true⟩ false).2.1 (by decide),
    (c7_amended ⟨false, ["a"], true⟩ true).2.2 (by decide) (by decide)⟩

/-- Claim C8: `link()` scans the active node's attributes for the first
one named `target` and behaves exactly as the spec's `aliasTarget`:
it returns the attribute's value precisely when that value differs from
the node's own resolved absolute path, and `None` when the attribute is
absent or its value equals the node's own path.  The embedding of
`link` is a pure read of the state — the source assigns neither
`_path` nor `_indata` — so no navigation is performed. -/
theorem c8_link_aliasTarget (t : Node) (st : NXState) (n : Node)
    (h : nodeAt t st.path = some n) :
    link t st = .ok (aliasTargetSpec (nodeAttrs n) (getpath st)) := by
  rw [link, h]
  show Except.ok (linkLoop (nodeAttrs n) (getpath st)) = _
  rw [linkLoop_eq_spec]

/-- Witness for C8: the spec §8 alias example — the leaf
`/entry1/alias_to_data` carries `target = "/entry1/data"`, which
differs from its own path, so `link()` returns it. -/
theorem c8_link_aliasTarget_witness :
    link treeEntry ⟨["entry1", "alias_to_data"], true⟩ = .ok (some "/entry1/data") := by
  rw [c8_link_aliasTarget treeEntry ⟨["entry1", "alias_to_data"], true⟩
    (.sds [("target", "/entry1/data")]) rfl]
  decide

/-- Claim C9: the buffer allocated by `getattr` for a `char` attribute
has exactly one element more than the declared count (the HDF4
zero-terminator accommodation), while for a non-`char` attribute it has
exactly the declared count. -/
theorem c9_getattr_alloc (length : Nat) (dtype : String) :
    (dtype = "char" → getattrAllocElems length dtype = length + 1) ∧
    (dtype ≠ "char" → getattrAllocElems length dtype = length) := by
  constructor
  · intro h
    subst h
    simp [getattrAllocElems, poutputElems]
  · intro h
    simp [getattrAllocElems, poutputElems, h]

/-- Witness for C9: a 5-element `char` attribute gets a 6-element
buffer; a 5-element `float32` attribute gets a 5-element buffer. -/
theorem c9_getattr_alloc_witness :
    getattrAllocElems 5 "char" = 6 ∧ getattrAllocElems 5 "float32" = 5 :=
  ⟨(c9_getattr_alloc 5 "char").1 rfl, (c9_getattr_alloc 5 "float32").2 (by decide)⟩

/-- Claim C10: each single-step navigation operation — `opengroup`
(with or without an explicit class), `opendata`, `closegroup`,
`closedata` — mutates the path stack and in-data flag only after the
underlying store call succeeds: whenever the operation raises, the
state is exactly what it was before the call. -/
theorem c10_step_atomic (t : Node) (st : NXState) (name : String) (c : Option String) :
    ((opengroup t st name c).err ≠ none → (opengroup t st name c).state = st) ∧
    ((opendata t st name).err ≠ none → (opendata t st name).state = st) ∧
    ((closegroup t st).err ≠ none → (closegroup t st).state = st) ∧
    ((closedata t st).err ≠ none → (closedata t st).state = st) := by
  refine ⟨?_, ?_, ?_, ?_⟩
  · intro h
    cases hcls : opengroupClass t st name c with
    | error e =>
      have he : opengroup t st name c = ⟨st, [], some e⟩ := by
        rw [opengroup, hcls]
      rw [he]
    | ok c1 =>
      have he : opengroup t st name c =
          (if storeOpengroupOK t st name c1 = true then
            ⟨⟨st.path ++ [name], st.indata⟩, [Op.openGroup name c1], none⟩
          else ⟨st, [], some NXError.storeError⟩) := by
        rw [opengroup, hcls]
      rw [he] at h ⊢
      by_cases hs : storeOpengroupOK t st name c1 = true
      · rw [if_pos hs] at h; simp at h
      · rw [if_neg hs]
  · intro h
    by_cases hs : storeOpendataOK t st name = true
    · rw [opendata, if_pos hs] at h; simp at h
    · rw [opendata, if_neg hs]
  · intro h
    by_cases hs : storeClosegroupOK t st = true
    · rw [closegroup, if_pos hs] at h; simp at h
    · rw [closegroup, if_neg hs]
  · intro h
    by_cases hs : storeClosedataOK t st = true
    · rw [closedata, if_pos hs] at h; simp at h
    · rw [closedata, if_neg hs]

/-- Witness for C10: failing `opengroup`/`opendata` on an absent name,
`closegroup` at the root and `closedata` outside a dataset all leave
the state untouched. -/
theorem c10_step_atomic_witness :
    (opengroup treeABC ⟨[], false⟩ "zzz" (some "NXz")).state = ⟨[], false⟩ ∧
    (opendata treeABC ⟨[], false⟩ "zzz").state = ⟨[], false⟩ ∧
    (closegroup treeABC ⟨[], false⟩).state = ⟨[], false⟩ ∧
    (closedata treeABC ⟨[], false⟩).state = ⟨[], false⟩ :=
  ⟨(c10_step_atomic treeABC ⟨[], false⟩ "zzz" (some "NXz")).1 (by decide),
    (c10_step_atomic treeABC ⟨[], false⟩ "zzz" (some "NXz")).2.1 (by decide),
    (c10_step_atomic treeABC ⟨[], false⟩ "zzz" (some "NXz")).2.2.1 (by decide),
    (c10_step_atomic treeABC ⟨[], false⟩ "zzz" (some "NXz")).2.2.2 (by decide)⟩

end Napi
